import Mathlib

/-!
Shallow embedding of the core of the audited repository (an asynchronous
smart-contract audit pipeline):

* `src/lib/reports.ts` — the historical-findings index and its scored search
  (`initializeReportsIndex`, `searchRelevantFindings`, `getFindingsByCategory`);
* `src/lib/storage.ts` — the job-record store (`saveAudit`, `getAudit`,
  `getAllAudits`, `updateAuditStatus`), with its filesystem branch and its
  Vercel-KV (Redis) branch modelled separately;
* the recovery sweeper (`recoverStuckAudits`).

JavaScript strings are modelled as Lean `String` and string primitives
(`toLowerCase`, `includes`, `slice`, `sort`) are re-implemented over the
character list so that every definition evaluates inside the kernel.
Timestamps (`created_at` ISO-8601 strings, `Date.now()`) are modelled by
their epoch-millisecond values as natural numbers, since the code only ever
compares them through `new Date(x).getTime()`.
-/

/-! ### JavaScript string primitives -/

/-- ASCII branch of `String.prototype.toLowerCase` on one character: the
source data (titles, tags, keywords, detector names) is ASCII. -/
def charLower (c : Char) : Char :=
  if 65 ≤ c.toNat ∧ c.toNat ≤ 90 then Char.ofNat (c.toNat + 32) else c

/-- `String.prototype.toLowerCase` (ASCII). -/
def jsToLower (s : String) : String :=
  String.mk (s.data.map charLower)

/-- Boolean list-prefix test (helper for the substring test). -/
def listPrefixB : List Char → List Char → Bool
  | [], _ => true
  | _ :: _, [] => false
  | a :: as, b :: bs => a == b && listPrefixB as bs

/-- Boolean list-substring (contiguous) test. -/
def listInfixB (sub : List Char) : List Char → Bool
  | [] => sub.isEmpty
  | b :: bs => listPrefixB sub (b :: bs) || listInfixB sub bs

/-- `String.prototype.includes sub` on `s`. -/
def jsIncludes (s sub : String) : Bool :=
  listInfixB sub.data s.data

/-- `Array.prototype.slice(0, limit)`: a negative end index counts back from
the end of the array and is clamped at zero. -/
def jsSlice {α : Type} (limit : Int) (l : List α) : List α :=
  if limit < 0 then l.take ((Int.ofNat l.length + limit).toNat)
  else l.take limit.toNat

/-- Stable insertion used by the model of `Array.prototype.sort`. -/
def insertLe {α : Type} (le : α → α → Bool) (a : α) : List α → List α
  | [] => [a]
  | b :: bs => if le b a then b :: insertLe le a bs else a :: b :: bs

/-- `Array.prototype.sort(cmp)`: ECMAScript requires the result to be a
stable sort consistent with the comparator, which stable insertion sort by
the comparator-induced `le` produces. -/
def jsSort {α : Type} (le : α → α → Bool) : List α → List α
  | [] => []
  | a :: as => insertLe le a (jsSort le as)

/-! ### src/lib/types.ts — historical findings -/

/-- The severity union type `"CRITICAL" | "HIGH" | "MEDIUM" | "LOW" | "INFO"`. -/
inductive Impact : Type
  | critical
  | high
  | medium
  | low
  | info
deriving DecidableEq

/-- `SecurityFinding` from src/lib/types.ts (a historical corpus record).
`quality_score` and `rarity_score` are JS numbers used additively, modelled
as integers; `report_date` (a JSON object) is modelled as an association
list of its string fields. -/
structure SecurityFinding : Type where
  id : String
  title : String
  impact : Impact
  content : String
  summary : String
  quality_score : Int
  rarity_score : Int
  report_date : List (String × String)
  firm_name : String
  protocol_name : String
  source_link : String
  github_link : String
  tags : List String
  finders : List String
deriving DecidableEq

/-- `SecurityReport` from src/lib/types.ts. -/
structure SecurityReport : Type where
  category : String
  total_findings : Nat
  fetched_at : String
  findings : List SecurityFinding
deriving DecidableEq

/-! ### src/lib/reports.ts — scored search -/

/-- The score accumulated for one finding inside `searchRelevantFindings`
(src/lib/reports.ts lines 48-80): +3 per keyword contained in the lowercased
`title content` text, +5 per (pattern, tag) pair where the lowercased tag
contains the lowercased pattern, +10 for CRITICAL / +5 for HIGH impact,
plus `quality_score * 2 + rarity_score`. -/
def computeScore (f : SecurityFinding) (keywords patterns : List String) : Int :=
  let searchText := jsToLower (f.title ++ " " ++ f.content)
  let s1 := keywords.foldl
    (fun sc keyword => if jsIncludes searchText (jsToLower keyword) then sc + 3 else sc) 0
  let s2 := patterns.foldl
    (fun sc pat =>
      f.tags.foldl
        (fun sc2 tag => if jsIncludes (jsToLower tag) (jsToLower pat) then sc2 + 5 else sc2)
        sc)
    s1
  let s3 := if f.impact = Impact.critical then s2 + 10 else s2
  let s4 := if f.impact = Impact.high then s3 + 5 else s3
  s4 + f.quality_score * 2 + f.rarity_score

/-- Comparator of the JS sort `(a, b) => b.score - a.score`: `a` may stay
before `b` exactly when `b.score ≤ a.score`. -/
def scoreDescLe (a b : SecurityFinding × Int) : Bool :=
  decide (b.2 ≤ a.2)

/-- `searchRelevantFindings` (src/lib/reports.ts lines 41-88) with the
module-level `indexedFindings` pool passed explicitly: score every finding,
keep strictly positive scores, sort by descending score, truncate with
`slice(0, limit)`, return the findings. -/
def searchRelevantFindings (indexedFindings : List SecurityFinding)
    (keywords patterns : List String) (limit : Int) : List SecurityFinding :=
  let scoredFindings := indexedFindings.map (fun finding => (finding, computeScore finding keywords patterns))
  ((jsSlice limit (jsSort scoreDescLe (scoredFindings.filter (fun sf => 0 < sf.2))))).map
    (fun sf => sf.1)

/-! ### src/lib/reports.ts — module state and lazy index load -/

/-- The module-level mutable state of src/lib/reports.ts:
`reportsCache` (a `Map<string, SecurityReport>` or `null`) and the flat
`indexedFindings` pool. -/
structure ReportsState : Type where
  reportsCache : Option (List (String × SecurityReport))
  indexedFindings : List SecurityFinding
deriving DecidableEq

/-- The state at module load: `reportsCache = null`, `indexedFindings = []`. -/
def initialReportsState : ReportsState :=
  { reportsCache := none, indexedFindings := [] }

/-- `Map.prototype.set` / upsert on an association list. -/
def upsertAssoc {β : Type} (l : List (String × β)) (k : String) (v : β) : List (String × β) :=
  if l.any (fun p => p.1 == k) then l.map (fun p => if p.1 == k then (k, v) else p)
  else l ++ [(k, v)]

/-- `Map.prototype.get` on an association list. -/
def lookupAssoc {β : Type} (l : List (String × β)) (k : String) : Option β :=
  (l.find? (fun p => p.1 == k)).map (fun p => p.2)

/-- `initializeReportsIndex` (src/lib/reports.ts lines 15-36).  The
filesystem is passed explicitly: `readdir` is the outcome of
`fs.readdir(REPORTS_DIR)` and `readReport f` the outcome of reading and
JSON-parsing one file.  The guard returns at once when the cache is set;
otherwise the cache is assigned an empty map *before* the directory scan,
so a throwing `readdir` (propagated to the caller as the error result)
still leaves the cache non-null.  A file that fails to read or parse is
skipped; the others are merged into the cache and the flat pool. -/
def initReportsIndex (readdir : Except String (List String))
    (readReport : String → Except String SecurityReport)
    (st : ReportsState) : ReportsState × Except String Unit :=
  match st.reportsCache with
  | some _ => (st, Except.ok ())
  | none =>
    match readdir with
    | Except.error e => ({ st with reportsCache := some [] }, Except.error e)
    | Except.ok files =>
      let jsonFiles := files.filter (fun f => listInfixB ".json".data f.data &&
        listPrefixB ".json".data.reverse f.data.reverse)
      let final := jsonFiles.foldl
        (fun acc file =>
          match readReport file with
          | Except.error _ => acc
          | Except.ok report =>
            { acc with
              reportsCache := some (upsertAssoc (acc.reportsCache.getD []) file report),
              indexedFindings := acc.indexedFindings ++ report.findings })
        { st with reportsCache := some [] }
      (final, Except.ok ())

/-- `searchRelevantFindings` including its `await initializeReportsIndex()`
prelude: a failing first-time load rejects the search; otherwise the pure
search runs over the loaded pool. -/
def searchAfterInit (readdir : Except String (List String))
    (readReport : String → Except String SecurityReport)
    (st : ReportsState) (keywords patterns : List String) (limit : Int) :
    ReportsState × Except String (List SecurityFinding) :=
  match initReportsIndex readdir readReport st with
  | (st1, Except.error e) => (st1, Except.error e)
  | (st1, Except.ok _) =>
    (st1, Except.ok (searchRelevantFindings st1.indexedFindings keywords patterns limit))

/-- `getFindingsByCategory` (src/lib/reports.ts lines 93-98) including its
`await initializeReportsIndex()` prelude: look up `category.toLowerCase() +
".json"` in the cache and return its findings, or an empty list. -/
def getFindingsByCategoryFull (readdir : Except String (List String))
    (readReport : String → Except String SecurityReport)
    (st : ReportsState) (category : String) :
    ReportsState × Except String (List SecurityFinding) :=
  match initReportsIndex readdir readReport st with
  | (st1, Except.error e) => (st1, Except.error e)
  | (st1, Except.ok _) =>
    (st1, Except.ok
      (match st1.reportsCache with
       | none => []
       | some cache =>
         match lookupAssoc cache (jsToLower category ++ ".json") with
         | none => []
         | some report => report.findings))

/-! ### src/lib/types.ts — job records -/

/-- The status union type of `AuditResult`:
`"pending" | "analyzing" | "completed" | "failed"`. -/
inductive Status : Type
  | pending
  | analyzing
  | completed
  | failed
deriving DecidableEq

/-- The optional `historical_reference` block of an `AuditFinding`. -/
structure HistoricalReference : Type where
  title : String
  protocol : String
  similarity_score : Int
  source_link : Option String
deriving DecidableEq

/-- `AuditFinding` from src/lib/types.ts (a finding inside a job record). -/
structure AuditFinding : Type where
  id : String
  severity : Impact
  title : String
  description : String
  line_numbers : List Nat
  file_path : String
  historical_reference : Option HistoricalReference
  poc_code : Option String
deriving DecidableEq

/-- `AuditResult` from src/lib/types.ts.  `created_at` holds the ISO-8601
creation instant, modelled by its epoch-millisecond value
`new Date(created_at).getTime()`, which is the only way the code reads it.
The optional `files` map is an association list. -/
structure AuditResult : Type where
  id : String
  repo_url : String
  system_map : String
  findings : List AuditFinding
  created_at : Nat
  status : Status
  files : Option (List (String × String))
  flattened_code : Option String
deriving DecidableEq

/-- `Partial<AuditResult>`: every field optionally present, as accepted by
the `updates` argument of `updateAuditStatus`. -/
structure AuditUpdates : Type where
  id : Option String := none
  repo_url : Option String := none
  system_map : Option String := none
  findings : Option (List AuditFinding) := none
  created_at : Option Nat := none
  status : Option Status := none
  files : Option (List (String × String)) := none
  flattened_code : Option (Option String) := none
deriving DecidableEq

/-- `Object.assign(audit, updates)`: every field present in `updates`
overwrites the corresponding field of `audit` (including `id`, `status` and
`created_at` — `Partial<AuditResult>` admits them all). -/
def objectAssign (a : AuditResult) (u : AuditUpdates) : AuditResult :=
  { id := u.id.getD a.id
    repo_url := u.repo_url.getD a.repo_url
    system_map := u.system_map.getD a.system_map
    findings := u.findings.getD a.findings
    created_at := u.created_at.getD a.created_at
    status := u.status.getD a.status
    files := match u.files with | some v => some v | none => a.files
    flattened_code := u.flattened_code.getD a.flattened_code }

/-! ### src/lib/storage.ts — filesystem backend

The `.temp/audits` directory is modelled as the list of its records in
directory order; file names are `id + ".json"`, so a record is addressed by
its `id` field. -/

/-- The persistent job-record store (filesystem branch). -/
abbrev Store : Type := List AuditResult

/-- `getAudit` (src/lib/storage.ts lines 37-52, filesystem branch): read
`id + ".json"`, or `null` when the read fails. -/
def getAudit (s : Store) (id : String) : Option AuditResult :=
  List.find? (fun a => a.id == id) s

/-- `saveAudit` (src/lib/storage.ts lines 20-32, filesystem branch):
`writeFile` on `audit.id + ".json"` replaces that file when it exists and
creates it otherwise. -/
def saveAudit (s : Store) (a : AuditResult) : Store :=
  if List.any s (fun b => b.id == a.id) then
    List.map (fun b => if b.id == a.id then a else b) s
  else s ++ [a]

/-- Comparator of `getAllAudits`'s JS sort
`(a, b) => new Date(b.created_at).getTime() - new Date(a.created_at).getTime()`:
`a` may stay before `b` exactly when `b.created_at ≤ a.created_at`. -/
def createdDescLe (a b : AuditResult) : Bool :=
  decide (b.created_at ≤ a.created_at)

/-- `getAllAudits` (src/lib/storage.ts lines 57-94, filesystem branch):
read every record then sort newest-first by `created_at`. -/
def getAllAudits (s : Store) : List AuditResult :=
  jsSort createdDescLe s

/-- `updateAuditStatus` (src/lib/storage.ts lines 99-113): load the record,
throw `Audit not found` when absent (first component `Except.error`, store
untouched), otherwise assign the new status, `Object.assign` the partial
updates over it and persist the merged record with `saveAudit`. -/
def updateAuditStatus (s : Store) (id : String) (status : Status)
    (updates : Option AuditUpdates) : Except String Unit × Store :=
  match getAudit s id with
  | none => (Except.error "Audit not found", s)
  | some audit =>
    let audit1 := { audit with status := status }
    let audit2 := match updates with
      | none => audit1
      | some u => objectAssign audit1 u
    (Except.ok (), saveAudit s audit2)

/-! ### src/lib/audit-recovery.ts — the recovery sweeper -/

/-- `TIMEOUT_MS = 15 * 60 * 1000` (15 minutes). -/
def TIMEOUT_MS : Int := 15 * 60 * 1000

/-- `Math.round(elapsed / 60000)` for the nonnegative elapsed values at
which the sweeper uses it (it only runs with `elapsed > TIMEOUT_MS`). -/
def roundMinutes (elapsed : Int) : Nat :=
  (elapsed.toNat + 30000) / 60000

/-- The timeout message the sweeper stores in `system_map`. -/
def timeoutMessage (m : Nat) : String :=
  "Error: Analysis timed out after " ++ Nat.repr m ++
    " minutes. The process may have been interrupted or encountered an error."

/-- The partial update passed by the sweeper to `updateAuditStatus`. -/
def timeoutUpdate (elapsed : Int) : AuditUpdates :=
  { system_map := some (timeoutMessage (roundMinutes elapsed)) }

/-- The `for (const audit of audits)` loop body of `recoverStuckAudits`
(src/lib/audit-recovery.ts): skip records that are neither analyzing nor
pending; for the rest compare `now - createdAt` against `TIMEOUT_MS` and
mark overdue records failed through `updateAuditStatus`.

`updateFails id` injects the outcome of the storage I/O performed by the
`updateAuditStatus` call for record `id`: `true` models a thrown storage
error (before the write lands, so the store is unchanged).  The source
wraps the *whole* loop in one try/catch, so the first throwing call ends
the pass with the store as it stands; an `Audit not found` throw from
`updateAuditStatus` itself ends the pass the same way. -/
def sweepLoop (updateFails : String → Bool) (now : Nat) :
    List AuditResult → Store → Store
  | [], s => s
  | audit :: rest, s =>
    if audit.status ≠ Status.analyzing ∧ audit.status ≠ Status.pending then
      sweepLoop updateFails now rest s
    else
      let elapsed : Int := (now : Int) - (audit.created_at : Int)
      if TIMEOUT_MS < elapsed then
        if updateFails audit.id then s
        else
          match updateAuditStatus s audit.id Status.failed (some (timeoutUpdate elapsed)) with
          | (Except.error _, s2) => s2
          | (Except.ok _, s2) => sweepLoop updateFails now rest s2
      else sweepLoop updateFails now rest s

/-- `recoverStuckAudits` (src/lib/audit-recovery.ts lines 7-33): list all
audits once, sweep them; the outer catch swallows any error, so the
function always returns (with the store as of the abort point). -/
def recoverStuckAudits (updateFails : String → Bool) (s : Store) (now : Nat) : Store :=
  sweepLoop updateFails now (getAllAudits s) s

/-- A record the sweeper will transition: analyzing or pending, and past the
15-minute deadline at time `now`. -/
def isStuck (now : Nat) (a : AuditResult) : Bool :=
  (a.status == Status.pending || a.status == Status.analyzing) &&
    decide (TIMEOUT_MS < (now : Int) - (a.created_at : Int))

/-- The record the sweeper persists for a stuck record `a`. -/
def failVersion (now : Nat) (a : AuditResult) : AuditResult :=
  { a with
    status := Status.failed
    system_map := timeoutMessage (roundMinutes ((now : Int) - (a.created_at : Int))) }

/-! ### src/lib/storage.ts — Vercel KV (Redis) backend -/

/-- The KV branch of the store: the `audit:id -> record` hash and the
`audits:list` sorted set (member `id`, score = `Date.now()` at save time). -/
structure KVStore : Type where
  kv : List (String × AuditResult)
  zset : List (String × Nat)
deriving DecidableEq

/-- `saveAudit` (KV branch): `kv.set("audit:" + id, audit)` then
`kv.zadd("audits:list", { score: Date.now(), member: id })`; `now` is the
`Date.now()` of the call.  `zadd` on an existing member replaces its score. -/
def kvSaveAudit (st : KVStore) (a : AuditResult) (now : Nat) : KVStore :=
  { kv := upsertAssoc st.kv a.id a
    zset := upsertAssoc st.zset a.id now }

/-- `getAudit` (KV branch). -/
def kvGetAudit (st : KVStore) (id : String) : Option AuditResult :=
  lookupAssoc st.kv id

/-- Score-ascending order on sorted-set entries.  Redis breaks score ties
lexicographically by member; no claim below depends on the relative order
of equal scores, which the stable sort of the model leaves unspecified. -/
def zsetScoreLe (p q : String × Nat) : Bool :=
  decide (p.2 ≤ q.2)

/-- `kv.zrange("audits:list", 0, -1, { rev: true })`: all members, highest
score first. -/
def kvZrangeRev (st : KVStore) : List String :=
  (List.reverse (jsSort zsetScoreLe st.zset)).map (fun p => p.1)

/-- `getAllAudits` (src/lib/storage.ts lines 59-69, KV branch): fetch the
member ids newest-save-first and look each record up, skipping missing
ones. -/
def kvGetAllAudits (st : KVStore) : List AuditResult :=
  (kvZrangeRev st).filterMap (fun id => lookupAssoc st.kv id)

/-- The save-time score the KV listing actually orders by. -/
def kvScoreOf (st : KVStore) (a : AuditResult) : Nat :=
  (lookupAssoc st.zset a.id).getD 0

/-- Well-formedness a store reached through `kvSaveAudit` satisfies: sorted
set members are distinct and every stored record sits under its own id. -/
abbrev KVWellFormed (st : KVStore) : Prop :=
  (st.zset.map (fun p => p.1)).Nodup ∧ ∀ p ∈ st.kv, p.2.id = p.1

/-! ### Concrete records for witnesses and counterexamples -/

/-- The Scenario-2 historical finding: severity CRITICAL, quality 8,
rarity 3, tags `["Oracle"]`, title `"Oracle manipulation"`. -/
def oracleFinding : SecurityFinding :=
  { id := "h1", title := "Oracle manipulation", impact := Impact.critical,
    content := "", summary := "", quality_score := 8, rarity_score := 3,
    report_date := [], firm_name := "", protocol_name := "", source_link := "",
    github_link := "", tags := ["Oracle"], finders := [] }

/-- A finding every scoring component leaves at zero. -/
def quietFinding : SecurityFinding :=
  { id := "h2", title := "Minor note", impact := Impact.low,
    content := "", summary := "", quality_score := 0, rarity_score := 0,
    report_date := [], firm_name := "", protocol_name := "", source_link := "",
    github_link := "", tags := [], finders := [] }

/-- A fresh job record as the ingest endpoint builds it, then moved to the
given status. -/
def mkAudit (id : String) (created : Nat) (st : Status) : AuditResult :=
  { id := id, repo_url := "https://github.com/acme/repo", system_map := "",
    findings := [], created_at := created, status := st, files := none,
    flattened_code := none }

def c1Store : Store := [mkAudit "job1" 0 Status.failed]

/-- The update a late success transition carries (findings, no status/id). -/
def c1LateUpdate : AuditUpdates := { findings := some [] }

def c2Job : AuditResult := mkAudit "job-stuck" 0 Status.analyzing

def c2Done : AuditResult := mkAudit "job-done" 500 Status.completed

def c2Store : Store := [c2Job, c2Done]

def c6Store : Store := [mkAudit "known" 3 Status.pending]

def c7A : AuditResult := mkAudit "a7" 200 Status.analyzing

def c7X : AuditResult := mkAudit "x7" 100 Status.analyzing

def c7B : AuditResult := mkAudit "b7" 0 Status.analyzing

def c7Store : Store := [c7A, c7X, c7B]

/-- Storage failure injection: the update of record `"x7"` throws. -/
def c7Fails : String → Bool := fun id => id == "x7"

def c8A : AuditResult := mkAudit "a8" 0 Status.pending

def c8B : AuditResult := mkAudit "b8" 10 Status.pending

/-- KV store after `save A` at t=100, `save B` at t=110, re-`save A` at
t=120 (an upsert of the existing record). -/
def c8KVDemo : KVStore :=
  kvSaveAudit (kvSaveAudit (kvSaveAudit ⟨[], []⟩ c8A 100) c8B 110) c8A 120

/-- Filesystem store after the same three saves. -/
def c8FsDemo : Store := saveAudit (saveAudit (saveAudit [] c8A) c8B) c8A

def c9Audit : AuditResult := mkAudit "job9" 5 Status.analyzing

/-- A partial update that carries a `created_at` field. -/
def c9Update : AuditUpdates := { created_at := some 99 }

/-- A partial update without a `created_at` field. -/
def c9WitUpdate : AuditUpdates := { system_map := some "progress" }

/-! ### String and sort lemmas -/

theorem insertLe_perm {α : Type} (le : α → α → Bool) (a : α) (l : List α) :
    (insertLe le a l).Perm (a :: l) := by
  induction l with
  | nil => simp [insertLe]
  | cons b bs ih =>
    by_cases h : le b a = true
    · simp only [insertLe, h, if_true]
      exact (ih.cons b).trans (List.Perm.swap a b bs)
    · simp [insertLe, h]

theorem jsSort_perm {α : Type} (le : α → α → Bool) (l : List α) :
    (jsSort le l).Perm l := by
  induction l with
  | nil => simp [jsSort]
  | cons a as ih =>
    exact (insertLe_perm le a (jsSort le as)).trans (ih.cons a)

theorem pairwise_insertLe {α : Type} {le : α → α → Bool}
    (htr : ∀ a b c, le a b = true → le b c = true → le a c = true)
    (hto : ∀ a b, le a b = true ∨ le b a = true)
    (a : α) (l : List α) (h : l.Pairwise (fun x y => le x y = true)) :
    (insertLe le a l).Pairwise (fun x y => le x y = true) := by
  induction l with
  | nil => simp [insertLe]
  | cons b bs ih =>
    rcases List.pairwise_cons.mp h with ⟨hb, hbs⟩
    by_cases hba : le b a = true
    · simp only [insertLe, hba, if_true]
      refine List.pairwise_cons.mpr ⟨?_, ih hbs⟩
      intro x hx
      rcases List.mem_cons.mp ((insertLe_perm le a bs).mem_iff.mp hx) with hxa | hxbs
      · exact hxa ▸ hba
      · exact hb x hxbs
    · have hab : le a b = true := (hto a b).resolve_right hba
      simp only [insertLe, hba, if_false]
      refine List.pairwise_cons.mpr ⟨?_, h⟩
      intro x hx
      rcases List.mem_cons.mp hx with hxb | hxbs
      · exact hxb ▸ hab
      · exact htr a b x hab (hb x hxbs)

theorem jsSort_pairwise {α : Type} {le : α → α → Bool}
    (htr : ∀ a b c, le a b = true → le b c = true → le a c = true)
    (hto : ∀ a b, le a b = true ∨ le b a = true) (l : List α) :
    (jsSort le l).Pairwise (fun x y => le x y = true) := by
  induction l with
  | nil => simp [jsSort]
  | cons a as ih => exact pairwise_insertLe htr hto a (jsSort le as) ih

theorem listPrefixB_append (l t : List Char) : listPrefixB l (l ++ t) = true := by
  induction l with
  | nil => simp [listPrefixB]
  | cons a as ih => simp [listPrefixB, ih]

theorem listInfixB_self_append (sub q : List Char) :
    listInfixB sub (sub ++ q) = true := by
  cases hkey : sub ++ q with
  | nil =>
    have : sub = [] := by
      cases sub with
      | nil => rfl
      | cons a as => simp at hkey
    simp [this, listInfixB]
  | cons b bs =>
    rw [listInfixB, ← hkey, listPrefixB_append]
    simp

theorem listInfixB_append_left (p sub q : List Char) :
    listInfixB sub (p ++ (sub ++ q)) = true := by
  induction p with
  | nil => simpa using listInfixB_self_append sub q
  | cons a as ih =>
    have ih2 : listInfixB sub (as.append (sub ++ q)) = true := ih
    simp only [List.cons_append, listInfixB, ih2, Bool.or_true]

/-! ### Store lemmas -/

theorem getAudit_id {s : Store} {id : String} {r : AuditResult}
    (h : getAudit s id = some r) : r.id = id := by
  have := List.find?_some h
  simpa [beq_iff_eq] using this

theorem find?_map_replace (a : AuditResult) :
    ∀ s : Store, List.any s (fun b => b.id == a.id) = true →
      List.find? (fun x => x.id == a.id)
        (List.map (fun b => if b.id == a.id then a else b) s) = some a := by
  intro s
  induction s with
  | nil => simp
  | cons b bs ih =>
    intro hany
    by_cases hb : (b.id == a.id) = true
    · rw [List.map_cons, if_pos hb, List.find?_cons_of_pos]
      simp
    · have hbs : List.any bs (fun x => x.id == a.id) = true := by
        rcases List.any_eq_true.mp hany with ⟨x, hx, hpx⟩
        rcases List.mem_cons.mp hx with rfl | hxbs
        · exact absurd hpx hb
        · exact List.any_eq_true.mpr ⟨x, hxbs, hpx⟩
      rw [List.map_cons, if_neg hb,
        @List.find?_cons_of_neg _ (fun x => x.id == a.id) b _ hb]
      exact ih hbs

theorem getAudit_saveAudit_self (s : Store) (a : AuditResult) :
    getAudit (saveAudit s a) a.id = some a := by
  by_cases hany : List.any s (fun b => b.id == a.id) = true
  · simp only [getAudit, saveAudit, if_pos hany]
    exact find?_map_replace a s hany
  · simp only [getAudit, saveAudit, if_neg hany]
    rw [List.find?_append]
    have hnone : List.find? (fun x => x.id == a.id) s = none := by
      rw [List.find?_eq_none]
      intro x hx hpx
      exact hany (List.any_eq_true.mpr ⟨x, hx, hpx⟩)
    rw [hnone]
    simp [List.find?]

theorem find?_map_replace_other {a : AuditResult} {id2 : String} (h : id2 ≠ a.id) :
    ∀ bs : List AuditResult,
      List.find? (fun x => x.id == id2)
        (List.map (fun b => if b.id == a.id then a else b) bs)
        = List.find? (fun x => x.id == id2) bs := by
  intro bs
  induction bs with
  | nil => simp
  | cons b tl ih =>
    by_cases hb : (b.id == a.id) = true
    · have hbid : b.id = a.id := by simpa [beq_iff_eq] using hb
      have hna : ((fun x => x.id == id2) a) = false := by
        simp [beq_eq_false_iff_ne]
        exact fun hc => h hc.symm
      have hnb : ((fun x => x.id == id2) b) = false := by
        simp [beq_eq_false_iff_ne, hbid]
        exact fun hc => h hc.symm
      rw [List.map_cons, if_pos hb,
        @List.find?_cons_of_neg _ (fun x => x.id == id2) a _ (by simp [hna]),
        @List.find?_cons_of_neg _ (fun x => x.id == id2) b _ (by simp [hnb])]
      exact ih
    · by_cases hb2 : (b.id == id2) = true
      · rw [List.map_cons, if_neg hb,
          @List.find?_cons_of_pos _ (fun x => x.id == id2) b _ hb2,
          @List.find?_cons_of_pos _ (fun x => x.id == id2) b _ hb2]
      · rw [List.map_cons, if_neg hb,
          @List.find?_cons_of_neg _ (fun x => x.id == id2) b _ hb2,
          @List.find?_cons_of_neg _ (fun x => x.id == id2) b _ hb2]
        exact ih

theorem getAudit_saveAudit_other {id2 : String} {a : AuditResult}
    (h : id2 ≠ a.id) (s : Store) :
    getAudit (saveAudit s a) id2 = getAudit s id2 := by
  by_cases hany : List.any s (fun b => b.id == a.id) = true
  · simp only [getAudit, saveAudit, if_pos hany]
    exact find?_map_replace_other h s
  · simp only [getAudit, saveAudit, if_neg hany]
    rw [List.find?_append]
    have hA : List.find? (fun x => x.id == id2) [a] = none := by
      have : (a.id == id2) = false := by
        simp [beq_eq_false_iff_ne]
        exact fun hc => h hc.symm
      simp [List.find?, this]
    rw [hA]
    cases List.find? (fun x => x.id == id2) s with
    | none => rfl
    | some r => rfl

theorem getAudit_of_mem_nodup :
    ∀ {s : Store} {a : AuditResult},
      (s.map (fun b => b.id)).Nodup → a ∈ s → getAudit s a.id = some a := by
  intro s
  induction s with
  | nil => intro a _ ha; simp at ha
  | cons b bs ih =>
    intro a hnd ha
    rw [List.map_cons, List.nodup_cons] at hnd
    rcases List.mem_cons.mp ha with rfl | hmem
    · exact @List.find?_cons_of_pos _ (fun x => x.id == a.id) a _ (by simp) 
    · by_cases hb : (b.id == a.id) = true
      · exfalso
        have hmm : a.id ∈ bs.map (fun x => x.id) := List.mem_map_of_mem _ hmem
        have hbid : b.id = a.id := by simpa [beq_iff_eq] using hb
        exact hnd.1 (hbid ▸ hmm)
      · rw [getAudit, @List.find?_cons_of_neg _ (fun x => x.id == a.id) b _ hb]
        exact ih hnd.2 hmem

/-! ### Sweep lemmas -/

theorem sweepLoop_cons_skip (uf : String → Bool) (now : Nat) (audit : AuditResult)
    (rest : List AuditResult) (s : Store)
    (h : audit.status ≠ Status.analyzing ∧ audit.status ≠ Status.pending) :
    sweepLoop uf now (audit :: rest) s = sweepLoop uf now rest s := by
  simp only [sweepLoop]
  rw [if_pos h]

theorem sweepLoop_cons_calm (uf : String → Bool) (now : Nat) (audit : AuditResult)
    (rest : List AuditResult) (s : Store)
    (h2 : ¬ TIMEOUT_MS < (now : Int) - (audit.created_at : Int)) :
    sweepLoop uf now (audit :: rest) s = sweepLoop uf now rest s := by
  by_cases h : audit.status ≠ Status.analyzing ∧ audit.status ≠ Status.pending
  · simp only [sweepLoop]; rw [if_pos h]
  · simp only [sweepLoop]; rw [if_neg h, if_neg h2]

theorem sweepLoop_cons_update (uf : String → Bool) (now : Nat) (audit : AuditResult)
    (rest : List AuditResult) (s : Store) (r : AuditResult)
    (h : ¬ (audit.status ≠ Status.analyzing ∧ audit.status ≠ Status.pending))
    (h2 : TIMEOUT_MS < (now : Int) - (audit.created_at : Int))
    (h3 : uf audit.id = false)
    (hr : getAudit s audit.id = some r) :
    sweepLoop uf now (audit :: rest) s
      = sweepLoop uf now rest
          (saveAudit s
            (objectAssign { r with status := Status.failed }
              (timeoutUpdate ((now : Int) - (audit.created_at : Int))))) := by
  simp only [sweepLoop]
  rw [if_neg h, if_pos h2, h3]
  simp only [Bool.false_eq_true, if_false, updateAuditStatus, hr]

theorem sweepLoop_cons_abort (uf : String → Bool) (now : Nat) (audit : AuditResult)
    (rest : List AuditResult) (s : Store)
    (h : ¬ (audit.status ≠ Status.analyzing ∧ audit.status ≠ Status.pending))
    (h2 : TIMEOUT_MS < (now : Int) - (audit.created_at : Int))
    (h3 : uf audit.id = true) :
    sweepLoop uf now (audit :: rest) s = s := by
  simp only [sweepLoop]
  rw [if_neg h, if_pos h2, h3]
  simp

theorem objectAssign_timeout (a : AuditResult) (now : Nat) :
    objectAssign { a with status := Status.failed }
        (timeoutUpdate ((now : Int) - (a.created_at : Int)))
      = failVersion now a := rfl

theorem sweepLoop_ok (now : Nat) :
    ∀ (todo : List AuditResult) (s : Store),
      (todo.map (fun b => b.id)).Nodup →
      (∀ a ∈ todo, getAudit s a.id = some a) →
      (∀ a ∈ todo,
          getAudit (sweepLoop (fun _ => false) now todo s) a.id
            = some (if isStuck now a then failVersion now a else a))
      ∧ (∀ id, id ∉ todo.map (fun b => b.id) →
          getAudit (sweepLoop (fun _ => false) now todo s) id = getAudit s id) := by
  intro todo
  induction todo with
  | nil =>
    intro s _ _
    exact ⟨fun a ha => absurd ha (List.not_mem_nil a), fun id _ => rfl⟩
  | cons audit rest ih =>
    intro s hnd hcur
    rw [List.map_cons, List.nodup_cons] at hnd
    have hcur0 : getAudit s audit.id = some audit :=
      hcur audit (List.mem_cons_self audit rest)
    by_cases hskip : audit.status ≠ Status.analyzing ∧ audit.status ≠ Status.pending
    · rw [sweepLoop_cons_skip _ _ _ _ _ hskip]
      have hstuck : isStuck now audit = false := by
        cases hc : audit.status with
        | pending => exact absurd hc hskip.2
        | analyzing => exact absurd hc hskip.1
        | completed => simp [isStuck, hc]
        | failed => simp [isStuck, hc]
      obtain ⟨h1, h2⟩ := ih s hnd.2 (fun a ha => hcur a (List.mem_cons_of_mem _ ha))
      constructor
      · intro a ha
        rcases List.mem_cons.mp ha with rfl | hm
        · rw [h2 a.id hnd.1, hcur0, hstuck]
          simp
        · exact h1 a hm
      · intro id hid
        exact h2 id (fun hc => hid (List.mem_cons_of_mem _ hc))
    · have hact : audit.status = Status.analyzing ∨ audit.status = Status.pending := by
        by_contra hc
        push_neg at hc
        exact hskip ⟨hc.1, hc.2⟩
      by_cases hdue : TIMEOUT_MS < (now : Int) - (audit.created_at : Int)
      · rw [sweepLoop_cons_update _ _ _ _ _ audit hskip hdue rfl hcur0,
          objectAssign_timeout]
        have hstuck : isStuck now audit = true := by
          rcases hact with hc | hc <;> simp [isStuck, hc, hdue]
        have hcur2 : ∀ b ∈ rest, getAudit (saveAudit s (failVersion now audit)) b.id = some b := by
          intro b hb
          have hneq : b.id ≠ (failVersion now audit).id := by
            intro hc
            exact hnd.1 ((show b.id = audit.id from hc) ▸
              List.mem_map_of_mem (fun x => x.id) hb)
          rw [getAudit_saveAudit_other hneq s]
          exact hcur b (List.mem_cons_of_mem _ hb)
        obtain ⟨h1, h2⟩ := ih (saveAudit s (failVersion now audit)) hnd.2 hcur2
        constructor
        · intro a ha
          rcases List.mem_cons.mp ha with rfl | hm
          · rw [h2 a.id hnd.1, hstuck]
            simpa using getAudit_saveAudit_self s (failVersion now a)
          · exact h1 a hm
        · intro id hid
          have hid0 : id ≠ (failVersion now audit).id := by
            intro hc
            apply hid
            rw [List.map_cons, ← (show id = audit.id from hc)]
            exact List.mem_cons_self id (rest.map (fun b => b.id))
          rw [h2 id (fun hc => hid (List.mem_cons_of_mem _ hc))]
          exact getAudit_saveAudit_other hid0 s
      · rw [sweepLoop_cons_calm _ _ _ _ _ hdue]
        have hstuck : isStuck now audit = false := by
          simp [isStuck, hdue]
        obtain ⟨h1, h2⟩ := ih s hnd.2 (fun a ha => hcur a (List.mem_cons_of_mem _ ha))
        constructor
        · intro a ha
          rcases List.mem_cons.mp ha with rfl | hm
          · rw [h2 a.id hnd.1, hcur0, hstuck]
            simp
          · exact h1 a hm
        · intro id hid
          exact h2 id (fun hc => hid (List.mem_cons_of_mem _ hc))

theorem isStuck_spec (now : Nat) (a : AuditResult) :
    isStuck now a = true ↔
      (a.status = Status.pending ∨ a.status = Status.analyzing) ∧
        TIMEOUT_MS < (now : Int) - (a.created_at : Int) := by
  simp [isStuck, Bool.and_eq_true, Bool.or_eq_true, beq_iff_eq, decide_eq_true_eq]

theorem sweepLoop_abortAt (uf : String → Bool) (now : Nat) :
    ∀ (l1 : List AuditResult) (x : AuditResult) (l2 : List AuditResult) (s : Store),
      ((l1 ++ x :: l2).map (fun b => b.id)).Nodup →
      (∀ a ∈ l1 ++ x :: l2, getAudit s a.id = some a) →
      (∀ a ∈ l1, uf a.id = false) →
      isStuck now x = true → uf x.id = true →
      (∀ a ∈ l1,
          getAudit (sweepLoop uf now (l1 ++ x :: l2) s) a.id
            = some (if isStuck now a then failVersion now a else a))
      ∧ (∀ id, id ∉ l1.map (fun b => b.id) →
          getAudit (sweepLoop uf now (l1 ++ x :: l2) s) id = getAudit s id) := by
  intro l1
  induction l1 with
  | nil =>
    intro x l2 s hnd hcur huf hx hxf
    rcases (isStuck_spec now x).mp hx with ⟨hxact, hxdue⟩
    have hxskip : ¬ (x.status ≠ Status.analyzing ∧ x.status ≠ Status.pending) := by
      rcases hxact with hc | hc
      · exact fun hq => hq.2 hc
      · exact fun hq => hq.1 hc
    rw [List.nil_append, sweepLoop_cons_abort uf now x l2 s hxskip hxdue hxf]
    exact ⟨fun a ha => absurd ha (List.not_mem_nil a), fun id _ => rfl⟩
  | cons audit rest ih =>
    intro x l2 s hnd hcur huf hx hxf
    rw [List.cons_append] at hnd hcur ⊢
    rw [List.map_cons, List.nodup_cons] at hnd
    have hcur0 : getAudit s audit.id = some audit :=
      hcur audit (List.mem_cons_self _ _)
    have hufa : uf audit.id = false := huf audit (List.mem_cons_self _ _)
    have huf2 : ∀ a ∈ rest, uf a.id = false :=
      fun a ha => huf a (List.mem_cons_of_mem _ ha)
    have hnotrest : audit.id ∉ rest.map (fun b => b.id) := by
      intro hc
      apply hnd.1
      rw [List.map_append]
      exact List.mem_append_left _ hc
    by_cases hskip : audit.status ≠ Status.analyzing ∧ audit.status ≠ Status.pending
    · rw [sweepLoop_cons_skip _ _ _ _ _ hskip]
      have hstuck : isStuck now audit = false := by
        cases hc : audit.status with
        | pending => exact absurd hc hskip.2
        | analyzing => exact absurd hc hskip.1
        | completed => simp [isStuck, hc]
        | failed => simp [isStuck, hc]
      obtain ⟨h1, h2⟩ := ih x l2 s hnd.2
        (fun a ha => hcur a (List.mem_cons_of_mem _ ha)) huf2 hx hxf
      constructor
      · intro a ha
        rcases List.mem_cons.mp ha with rfl | hm
        · rw [h2 a.id hnotrest, hcur0, hstuck]
          simp
        · exact h1 a hm
      · intro id hid
        exact h2 id (fun hc => hid (by rw [List.map_cons]; exact List.mem_cons_of_mem _ hc))
    · by_cases hdue : TIMEOUT_MS < (now : Int) - (audit.created_at : Int)
      · rw [sweepLoop_cons_update _ _ _ _ _ audit hskip hdue hufa hcur0,
          objectAssign_timeout]
        have hact : audit.status = Status.analyzing ∨ audit.status = Status.pending := by
          by_contra hc
          push_neg at hc
          exact hskip ⟨hc.1, hc.2⟩
        have hstuck : isStuck now audit = true := by
          rcases hact with hc | hc <;> simp [isStuck, hc, hdue]
        have hcur2 : ∀ b ∈ rest ++ x :: l2,
            getAudit (saveAudit s (failVersion now audit)) b.id = some b := by
          intro b hb
          have hneq : b.id ≠ (failVersion now audit).id := by
            intro hc
            exact hnd.1 ((show b.id = audit.id from hc) ▸
              List.mem_map_of_mem (fun y => y.id) hb)
          rw [getAudit_saveAudit_other hneq s]
          exact hcur b (List.mem_cons_of_mem _ hb)
        obtain ⟨h1, h2⟩ := ih x l2 (saveAudit s (failVersion now audit)) hnd.2 hcur2 huf2 hx hxf
        constructor
        · intro a ha
          rcases List.mem_cons.mp ha with rfl | hm
          · rw [h2 a.id hnotrest, hstuck]
            simpa using getAudit_saveAudit_self s (failVersion now a)
          · exact h1 a hm
        · intro id hid
          have hid0 : id ≠ (failVersion now audit).id := by
            intro hc
            apply hid
            rw [List.map_cons, ← (show id = audit.id from hc)]
            exact List.mem_cons_self id (rest.map (fun b => b.id))
          rw [h2 id (fun hc => hid (by rw [List.map_cons]; exact List.mem_cons_of_mem _ hc))]
          exact getAudit_saveAudit_other hid0 s
      · rw [sweepLoop_cons_calm _ _ _ _ _ hdue]
        have hstuck : isStuck now audit = false := by
          simp [isStuck, hdue]
        obtain ⟨h1, h2⟩ := ih x l2 s hnd.2
          (fun a ha => hcur a (List.mem_cons_of_mem _ ha)) huf2 hx hxf
        constructor
        · intro a ha
          rcases List.mem_cons.mp ha with rfl | hm
          · rw [h2 a.id hnotrest, hcur0, hstuck]
            simp
          · exact h1 a hm
        · intro id hid
          exact h2 id (fun hc => hid (by rw [List.map_cons]; exact List.mem_cons_of_mem _ hc))

/-! ### Search lemmas -/

theorem jsSlice_sublist {α : Type} (limit : Int) (l : List α) :
    (jsSlice limit l).Sublist l := by
  unfold jsSlice
  split
  · exact List.take_sublist _ _
  · exact List.take_sublist _ _

theorem scoreDescLe_trans (a b c : SecurityFinding × Int)
    (hab : scoreDescLe a b = true) (hbc : scoreDescLe b c = true) :
    scoreDescLe a c = true := by
  simp only [scoreDescLe, decide_eq_true_eq] at *
  exact le_trans hbc hab

theorem scoreDescLe_total (a b : SecurityFinding × Int) :
    scoreDescLe a b = true ∨ scoreDescLe b a = true := by
  simp only [scoreDescLe, decide_eq_true_eq]
  exact le_total b.2 a.2

theorem mem_search_pipeline {pool : List SecurityFinding} {kw pats : List String}
    {limit : Int} {p : SecurityFinding × Int}
    (hp : p ∈ jsSlice limit (jsSort scoreDescLe
      ((List.map (fun f => (f, computeScore f kw pats)) pool).filter
        (fun sf => 0 < sf.2)))) :
    p.1 ∈ pool ∧ p.2 = computeScore p.1 kw pats ∧ 0 < p.2 := by
  have h1 : p ∈ jsSort scoreDescLe
      ((List.map (fun f => (f, computeScore f kw pats)) pool).filter
        (fun sf => 0 < sf.2)) :=
    (jsSlice_sublist limit _).subset hp
  have h2 := (jsSort_perm scoreDescLe _).mem_iff.mp h1
  have h3 := List.mem_filter.mp h2
  rcases List.mem_map.mp h3.1 with ⟨f, hf, rfl⟩
  exact ⟨hf, rfl, by simpa using h3.2⟩

theorem timeoutMessage_mentions (m : Nat) :
    jsIncludes (timeoutMessage m) (Nat.repr m) = true := by
  unfold jsIncludes timeoutMessage
  rw [String.data_append, String.data_append, List.append_assoc]
  exact listInfixB_append_left _ _ _

/-! ### KV listing lemmas -/

theorem lookupAssoc_eq_of_mem_nodup {β : Type} :
    ∀ {l : List (String × β)} {p : String × β},
      (l.map (fun q => q.1)).Nodup → p ∈ l → lookupAssoc l p.1 = some p.2 := by
  intro l
  induction l with
  | nil => intro p _ hp; simp at hp
  | cons q tl ih =>
    intro p hnd hp
    rw [List.map_cons, List.nodup_cons] at hnd
    rcases List.mem_cons.mp hp with rfl | hmem
    · rw [lookupAssoc, @List.find?_cons_of_pos _ (fun x => x.1 == p.1) p _ (by simp)]
      rfl
    · by_cases hq : (q.1 == p.1) = true
      · exfalso
        have hmm : p.1 ∈ tl.map (fun x => x.1) := List.mem_map_of_mem _ hmem
        have hqid : q.1 = p.1 := by simpa [beq_iff_eq] using hq
        exact hnd.1 (hqid ▸ hmm)
      · rw [lookupAssoc, @List.find?_cons_of_neg _ (fun x => x.1 == p.1) q _ hq]
        exact ih hnd.2 hmem

theorem lookupAssoc_some_spec {β : Type} {l : List (String × β)} {k : String} {v : β}
    (h : lookupAssoc l k = some v) : ∃ pr ∈ l, pr.1 = k ∧ pr.2 = v := by
  unfold lookupAssoc at h
  cases hf : List.find? (fun p => p.1 == k) l with
  | none => rw [hf] at h; simp at h
  | some pr =>
    rw [hf] at h
    refine ⟨pr, List.mem_of_find?_eq_some hf, ?_, by simpa using h⟩
    have := List.find?_some hf
    simpa [beq_iff_eq] using this

theorem zsetScoreLe_trans (a b c : String × Nat)
    (hab : zsetScoreLe a b = true) (hbc : zsetScoreLe b c = true) :
    zsetScoreLe a c = true := by
  simp only [zsetScoreLe, decide_eq_true_eq] at *
  exact le_trans hab hbc

theorem zsetScoreLe_total (a b : String × Nat) :
    zsetScoreLe a b = true ∨ zsetScoreLe b a = true := by
  simp only [zsetScoreLe, decide_eq_true_eq]
  exact le_total a.2 b.2

/-! ### updateAuditStatus lemmas -/

theorem updateAuditStatus_none_spec {s : Store} {id : String} {r : AuditResult}
    (hr : getAudit s id = some r) (st : Status) :
    (updateAuditStatus s id st none).1 = Except.ok ()
    ∧ getAudit (updateAuditStatus s id st none).2 id = some { r with status := st } := by
  constructor
  · simp [updateAuditStatus, hr]
  · have h2 : (updateAuditStatus s id st none).2 = saveAudit s { r with status := st } := by
      simp [updateAuditStatus, hr]
    rw [h2, ← getAudit_id hr]
    exact getAudit_saveAudit_self s { r with status := st }

theorem updateAuditStatus_some_spec {s : Store} {id : String} {r : AuditResult}
    (hr : getAudit s id = some r) (st : Status) (u : AuditUpdates)
    (hmid : (objectAssign { r with status := st } u).id = id) :
    (updateAuditStatus s id st (some u)).1 = Except.ok ()
    ∧ getAudit (updateAuditStatus s id st (some u)).2 id
        = some (objectAssign { r with status := st } u) := by
  constructor
  · simp [updateAuditStatus, hr]
  · have h2 : (updateAuditStatus s id st (some u)).2
        = saveAudit s (objectAssign { r with status := st } u) := by
      simp [updateAuditStatus, hr]
    rw [h2]
    have hself := getAudit_saveAudit_self s (objectAssign { r with status := st } u)
    rw [hmid] at hself
    exact hself

theorem updateAuditStatus_some_other {s : Store} {id : String} {r : AuditResult}
    (hr : getAudit s id = some r) (st : Status) (u : AuditUpdates)
    (hmid : (objectAssign { r with status := st } u).id ≠ id) :
    getAudit (updateAuditStatus s id st (some u)).2 id = getAudit s id := by
  have h2 : (updateAuditStatus s id st (some u)).2
      = saveAudit s (objectAssign { r with status := st } u) := by
    simp [updateAuditStatus, hr]
  rw [h2]
  exact getAudit_saveAudit_other (fun hc => hmid hc.symm) s

/-! ### Claims -/

/-! #### C1 -/


/-- Claim C1, counterexample: a job record already FAILED is moved to
COMPLETED by a later `updateAuditStatus` call — the claimed terminality of
COMPLETED/FAILED does not hold on the code. -/
theorem c1_counterexample :
    (getAudit c1Store "job1").map (fun r => r.status) = some Status.failed
    ∧ (getAudit (updateAuditStatus c1Store "job1" Status.completed (some c1LateUpdate)).2
          "job1").map (fun r => r.status) = some Status.completed := by decide

/-- Claim C1 (amended): `updateAuditStatus` applies the new status
unconditionally — for every stored record, whatever its current status
(including the terminal COMPLETED and FAILED), the record afterwards holds
the caller's new status; no ANALYZING check exists, so a late success
transition resurrects a FAILED job. -/
theorem c1_theorem (s : Store) (id : String) (st : Status)
    (upd : Option AuditUpdates) (r : AuditResult)
    (hr : getAudit s id = some r)
    (hupd : ∀ u, upd = some u → u.id = none ∧ u.status = none) :
    (getAudit (updateAuditStatus s id st upd).2 id).map (fun b => b.status)
      = some st := by
  cases upd with
  | none =>
    rw [(updateAuditStatus_none_spec hr st).2]
    rfl
  | some u =>
    obtain ⟨hu1, hu2⟩ := hupd u rfl
    have hmid : (objectAssign { r with status := st } u).id = id := by
      simp only [objectAssign, hu1, Option.getD_none]
      exact getAudit_id hr
    rw [(updateAuditStatus_some_spec hr st u hmid).2]
    simp [objectAssign, hu2]

/-- Claim C1, witness: the amended theorem applied to a FAILED record and a
late success transition carrying findings. -/
theorem c1_witness :
    (getAudit c1Store "job1" = some (mkAudit "job1" 0 Status.failed)
      ∧ (∀ u, some c1LateUpdate = some u → u.id = none ∧ u.status = none))
    ∧ (getAudit (updateAuditStatus c1Store "job1" Status.completed
          (some c1LateUpdate)).2 "job1").map (fun b => b.status)
        = some Status.completed :=
  ⟨⟨by decide, fun u hu => by cases hu; exact ⟨rfl, rfl⟩⟩,
    c1_theorem c1Store "job1" Status.completed (some c1LateUpdate)
      (mkAudit "job1" 0 Status.failed) (by decide)
      (fun u hu => by cases hu; exact ⟨rfl, rfl⟩)⟩

/-- Claim C6: `updateAuditStatus` on an id absent from the store fails with
the `Audit not found` error, creates no record, and leaves the store — and
hence its listing — unchanged. -/
theorem c6_theorem (s : Store) (id : String) (st : Status)
    (upd : Option AuditUpdates) (h : getAudit s id = none) :
    updateAuditStatus s id st upd = (Except.error "Audit not found", s)
    ∧ getAudit (updateAuditStatus s id st upd).2 id = none
    ∧ getAllAudits (updateAuditStatus s id st upd).2 = getAllAudits s := by
  have he : updateAuditStatus s id st upd = (Except.error "Audit not found", s) := by
    simp [updateAuditStatus, h]
  exact ⟨he, by rw [he]; exact h, by rw [he]⟩

/-- Claim C6, witness: the theorem applied to a store without the id
`"missing"`. -/
theorem c6_witness :
    (getAudit c6Store "missing" = none)
    ∧ updateAuditStatus c6Store "missing" Status.completed none
        = (Except.error "Audit not found", c6Store) :=
  ⟨by decide, (c6_theorem c6Store "missing" Status.completed none (by decide)).1⟩

/-- Claim C9, counterexample: a partial update carrying a `created_at`
field overwrites the stored creation timestamp (`Object.assign` copies
every present field), so the claimed immutability fails for a
`partialUpdate` containing the creation timestamp. -/
theorem c9_counterexample :
    c9Audit.created_at = 5
    ∧ (getAudit (updateAuditStatus [c9Audit] "job9" Status.analyzing
          (some c9Update)).2 "job9").map (fun r => r.created_at) = some 99 := by decide

/-- Claim C9 (amended): for every `updateAuditStatus` call whose partial
update does not itself carry a `created_at` field, the record's creation
timestamp is preserved (the merge only overwrites fields present in the
partial update). -/
theorem c9_theorem (s : Store) (id : String) (st : Status)
    (upd : Option AuditUpdates) (r : AuditResult)
    (hr : getAudit s id = some r)
    (hu : ∀ u, upd = some u → u.created_at = none) :
    ∃ r2, getAudit (updateAuditStatus s id st upd).2 id = some r2
      ∧ r2.created_at = r.created_at := by
  cases upd with
  | none =>
    exact ⟨{ r with status := st }, (updateAuditStatus_none_spec hr st).2, rfl⟩
  | some u =>
    have hcr : u.created_at = none := hu u rfl
    by_cases hmid : (objectAssign { r with status := st } u).id = id
    · refine ⟨objectAssign { r with status := st } u,
        (updateAuditStatus_some_spec hr st u hmid).2, ?_⟩
      simp [objectAssign, hcr]
    · exact ⟨r, by rw [updateAuditStatus_some_other hr st u hmid]; exact hr, rfl⟩

/-- Claim C9, witness: the amended theorem applied to a record updated with
a progress message only. -/
theorem c9_witness :
    (getAudit [c9Audit] "job9" = some c9Audit
      ∧ (∀ u, some c9WitUpdate = some u → u.created_at = none))
    ∧ (∃ r2, getAudit (updateAuditStatus [c9Audit] "job9" Status.failed
          (some c9WitUpdate)).2 "job9" = some r2
        ∧ r2.created_at = c9Audit.created_at) :=
  ⟨⟨by decide, fun u hu => by cases hu; rfl⟩,
    c9_theorem [c9Audit] "job9" Status.failed (some c9WitUpdate) c9Audit
      (by decide) (fun u hu => by cases hu; rfl)⟩

/-! ### Claims C2, C7 -/

/-- Claim C2: one no-failure sweep pass transitions every PENDING or
ANALYZING record whose elapsed time exceeds the 15-minute threshold to
FAILED, with the timeout message that reports (and textually contains) the
rounded elapsed minutes, and leaves every COMPLETED or FAILED record
unchanged. -/
theorem c2_theorem (s : Store) (now : Nat) (a : AuditResult)
    (hnd : (s.map (fun b => b.id)).Nodup) (ha : a ∈ s) :
    ((a.status = Status.pending ∨ a.status = Status.analyzing) →
        TIMEOUT_MS < (now : Int) - (a.created_at : Int) →
        getAudit (recoverStuckAudits (fun _ => false) s now) a.id
            = some (failVersion now a)
          ∧ (failVersion now a).system_map
              = timeoutMessage (roundMinutes ((now : Int) - (a.created_at : Int)))
          ∧ jsIncludes (failVersion now a).system_map
              (Nat.repr (roundMinutes ((now : Int) - (a.created_at : Int)))) = true)
    ∧ ((a.status = Status.completed ∨ a.status = Status.failed) →
        getAudit (recoverStuckAudits (fun _ => false) s now) a.id = some a) := by
  have hperm : (getAllAudits s).Perm s := jsSort_perm _ s
  have hndsnap : ((getAllAudits s).map (fun b => b.id)).Nodup :=
    ((hperm.map (fun b => b.id)).symm).nodup hnd
  have hcur : ∀ b ∈ getAllAudits s, getAudit s b.id = some b :=
    fun b hb => getAudit_of_mem_nodup hnd (hperm.mem_iff.mp hb)
  obtain ⟨h1, h2⟩ := sweepLoop_ok now (getAllAudits s) s hndsnap hcur
  have hmem : a ∈ getAllAudits s := hperm.mem_iff.mpr ha
  constructor
  · intro hact hdue
    have hstuck : isStuck now a = true := (isStuck_spec now a).mpr ⟨hact, hdue⟩
    refine ⟨?_, rfl, timeoutMessage_mentions _⟩
    have hfin := h1 a hmem
    rw [hstuck] at hfin
    simpa [recoverStuckAudits] using hfin
  · intro hterm
    have hstuck : isStuck now a = false := by
      rcases hterm with hc | hc <;> simp [isStuck, hc]
    have hfin := h1 a hmem
    rw [hstuck] at hfin
    simpa [recoverStuckAudits] using hfin

/-- Claim C2, witness: a job stuck in ANALYZING for 20 minutes is failed by
one sweep pass with a message containing `"20"`, while a COMPLETED record
is untouched. -/
theorem c2_witness :
    ((c2Store.map (fun b => b.id)).Nodup ∧ c2Job ∈ c2Store ∧ c2Done ∈ c2Store
      ∧ (c2Job.status = Status.pending ∨ c2Job.status = Status.analyzing)
      ∧ TIMEOUT_MS < ((1200000 : Nat) : Int) - (c2Job.created_at : Int))
    ∧ getAudit (recoverStuckAudits (fun _ => false) c2Store 1200000) c2Job.id
        = some (failVersion 1200000 c2Job)
    ∧ jsIncludes (failVersion 1200000 c2Job).system_map "20" = true
    ∧ getAudit (recoverStuckAudits (fun _ => false) c2Store 1200000) c2Done.id
        = some c2Done := by
  have hJ := c2_theorem c2Store 1200000 c2Job (by decide) (by decide)
  have hD := c2_theorem c2Store 1200000 c2Done (by decide) (by decide)
  have hstuckJ := hJ.1 (Or.inr (by decide)) (by decide)
  refine ⟨⟨by decide, by decide, by decide, by decide, by decide⟩,
    hstuckJ.1, ?_, hD.2 (Or.inl (by decide))⟩
  have h20 : Nat.repr (roundMinutes (((1200000 : Nat) : Int)
      - (c2Job.created_at : Int))) = "20" := by decide
  have hj := hstuckJ.2.2
  rw [h20] at hj
  exact hj

/-- Claim C7, counterexample: with three overdue ANALYZING jobs listed as
`[a7, x7, b7]` and a storage error thrown while updating `x7`, the sweep
pass leaves `b7` — a stuck job past the deadline — in ANALYZING: one
failing update does abort the processing of the remaining jobs. -/
theorem c7_counterexample :
    isStuck 2000000 c7B = true
    ∧ (getAudit (recoverStuckAudits c7Fails c7Store 2000000) "b7").map
        (fun r => r.status) = some Status.analyzing := by decide

/-- Claim C7 (amended): an error updating one stuck job aborts the rest of
the sweep pass — the single try/catch wraps the whole loop.  Stuck jobs
before the failing one in the listing order are still transitioned to
FAILED; the failing job and every job after it are left unchanged (the
error itself is swallowed, and the missed jobs wait for a later pass). -/
theorem c7_theorem (s : Store) (now : Nat) (uf : String → Bool)
    (l1 l2 : List AuditResult) (x : AuditResult)
    (hs : getAllAudits s = l1 ++ x :: l2)
    (hnd : (s.map (fun b => b.id)).Nodup)
    (hok : ∀ a ∈ l1, uf a.id = false)
    (hx : isStuck now x = true) (hxf : uf x.id = true) :
    (∀ a ∈ l1, isStuck now a = true →
        getAudit (recoverStuckAudits uf s now) a.id = some (failVersion now a))
    ∧ getAudit (recoverStuckAudits uf s now) x.id = getAudit s x.id
    ∧ (∀ a ∈ l2, getAudit (recoverStuckAudits uf s now) a.id = getAudit s a.id) := by
  have hperm : (getAllAudits s).Perm s := jsSort_perm _ s
  have hndsnap : ((l1 ++ x :: l2).map (fun b => b.id)).Nodup := by
    rw [← hs]
    exact ((hperm.map (fun b => b.id)).symm).nodup hnd
  have hcur : ∀ b ∈ l1 ++ x :: l2, getAudit s b.id = some b := by
    intro b hb
    rw [← hs] at hb
    exact getAudit_of_mem_nodup hnd (hperm.mem_iff.mp hb)
  obtain ⟨h1, h2⟩ := sweepLoop_abortAt uf now l1 x l2 s hndsnap hcur hok hx hxf
  have hrec : recoverStuckAudits uf s now = sweepLoop uf now (l1 ++ x :: l2) s := by
    rw [recoverStuckAudits, hs]
  have hdisj : ∀ b ∈ x :: l2, b.id ∉ l1.map (fun y => y.id) := by
    rw [List.map_append] at hndsnap
    rcases List.nodup_append.mp hndsnap with ⟨_, _, hdj⟩
    intro b hb hc
    exact hdj hc (List.mem_map_of_mem (fun y => y.id) hb)
  refine ⟨?_, ?_, ?_⟩
  · intro a ha hstuck
    have hfin := h1 a ha
    rw [hstuck] at hfin
    rw [hrec]
    simpa using hfin
  · rw [hrec]
    exact h2 x.id (hdisj x (List.mem_cons_self x l2))
  · intro a ha
    rw [hrec]
    exact h2 a.id (hdisj a (List.mem_cons_of_mem x ha))

/-- Claim C7, witness: the amended theorem applied to the three-job store —
the stuck job before the failing update is transitioned, the failing job
and the one after it keep their previous records. -/
theorem c7_witness :
    (getAllAudits c7Store = [c7A] ++ c7X :: [c7B]
      ∧ (c7Store.map (fun b => b.id)).Nodup
      ∧ (∀ a ∈ [c7A], c7Fails a.id = false)
      ∧ isStuck 2000000 c7X = true ∧ c7Fails c7X.id = true
      ∧ isStuck 2000000 c7A = true)
    ∧ getAudit (recoverStuckAudits c7Fails c7Store 2000000) c7A.id
        = some (failVersion 2000000 c7A)
    ∧ getAudit (recoverStuckAudits c7Fails c7Store 2000000) c7X.id
        = getAudit c7Store c7X.id
    ∧ (∀ a ∈ [c7B], getAudit (recoverStuckAudits c7Fails c7Store 2000000) a.id
        = getAudit c7Store a.id) := by
  have h := c7_theorem c7Store 2000000 c7Fails [c7A] [c7B] c7X
    (by decide) (by decide) (by decide) (by decide) (by decide)
  exact ⟨⟨by decide, by decide, by decide, by decide, by decide, by decide⟩,
    h.1 c7A (List.mem_cons_self c7A []) (by decide), h.2.1, h.2.2⟩

/-! ### Claims C3, C4, C5 -/

/-- Claim C3, counterexample: at the (integer) limit `-1`, `slice(0, -1)`
drops the last element instead of bounding the length, so the returned
sequence length (a natural number) can never be at most the limit — the
claimed contract fails for negative limits. -/
theorem c3_counterexample :
    ¬ (Int.ofNat (searchRelevantFindings [oracleFinding] ["oracle"] [] (-1)).length
          ≤ (-1 : Int)
      ∧ (∀ f ∈ searchRelevantFindings [oracleFinding] ["oracle"] [] (-1),
          0 < computeScore f ["oracle"] [])
      ∧ (searchRelevantFindings [oracleFinding] ["oracle"] [] (-1)).Pairwise
          (fun f g => computeScore g ["oracle"] [] ≤ computeScore f ["oracle"] [])) := by
  decide

/-- Claim C3 (amended): for every corpus, keyword set, pattern set and
NONNEGATIVE integer limit, `searchRelevantFindings` returns at most `limit`
findings, each scoring strictly above zero, sorted by non-increasing
score. -/
theorem c3_theorem (pool : List SecurityFinding) (keywords patterns : List String)
    (limit : Int) (h : 0 ≤ limit) :
    Int.ofNat (searchRelevantFindings pool keywords patterns limit).length ≤ limit
    ∧ (∀ f ∈ searchRelevantFindings pool keywords patterns limit,
        0 < computeScore f keywords patterns)
    ∧ (searchRelevantFindings pool keywords patterns limit).Pairwise
        (fun f g => computeScore g keywords patterns
          ≤ computeScore f keywords patterns) := by
  have hres : searchRelevantFindings pool keywords patterns limit
      = (jsSlice limit (jsSort scoreDescLe
          ((List.map (fun f => (f, computeScore f keywords patterns)) pool).filter
            (fun sf => 0 < sf.2)))).map (fun sf => sf.1) := rfl
  refine ⟨?_, ?_, ?_⟩
  · rw [hres, List.length_map]
    have h1 : (jsSlice limit (jsSort scoreDescLe
        ((List.map (fun f => (f, computeScore f keywords patterns)) pool).filter
          (fun sf => 0 < sf.2)))).length ≤ limit.toNat := by
      unfold jsSlice
      rw [if_neg (not_lt.mpr h)]
      exact List.length_take_le _ _
    calc (Int.ofNat _) ≤ Int.ofNat limit.toNat := Int.ofNat_le.mpr h1
      _ = limit := Int.toNat_of_nonneg h
  · intro f hf
    rw [hres] at hf
    rcases List.mem_map.mp hf with ⟨p, hp, rfl⟩
    rcases mem_search_pipeline hp with ⟨_, he, hpos⟩
    rw [← he]
    exact hpos
  · rw [hres, List.pairwise_map]
    have hsorted : (jsSort scoreDescLe
        ((List.map (fun f => (f, computeScore f keywords patterns)) pool).filter
          (fun sf => 0 < sf.2))).Pairwise (fun p q => scoreDescLe p q = true) :=
      jsSort_pairwise scoreDescLe_trans scoreDescLe_total _
    have htaken := List.Pairwise.sublist (jsSlice_sublist limit _) hsorted
    refine List.Pairwise.imp_of_mem ?_ htaken
    intro p q hpmem hqmem hr
    rcases mem_search_pipeline hpmem with ⟨_, hep, _⟩
    rcases mem_search_pipeline hqmem with ⟨_, heq, _⟩
    rw [← hep, ← heq]
    simpa [scoreDescLe, decide_eq_true_eq] using hr

/-- Claim C3, witness: the amended contract at the Scenario-2 corpus with
limit 10. -/
theorem c3_witness :
    ((0 : Int) ≤ 10)
    ∧ Int.ofNat (searchRelevantFindings [oracleFinding] ["oracle"] ["oracle"] 10).length
        ≤ 10
    ∧ (∀ f ∈ searchRelevantFindings [oracleFinding] ["oracle"] ["oracle"] 10,
        0 < computeScore f ["oracle"] ["oracle"])
    ∧ (searchRelevantFindings [oracleFinding] ["oracle"] ["oracle"] 10).Pairwise
        (fun f g => computeScore g ["oracle"] ["oracle"]
          ≤ computeScore f ["oracle"] ["oracle"]) := by
  have h := c3_theorem [oracleFinding] ["oracle"] ["oracle"] 10 (by decide)
  exact ⟨by decide, h.1, h.2.1, h.2.2⟩

/-- Claim C4: the Scenario-2 finding (CRITICAL, quality 8, rarity 3, tag
`"Oracle"`, title `"Oracle manipulation"`) scores exactly
10 + 8*2 + 3 + 3 + 5 = 37 for keywords `["oracle"]` and patterns
`["oracle"]`. -/
theorem c4_theorem : computeScore oracleFinding ["oracle"] ["oracle"] = 37 := by
  decide

/-- Claim C5, counterexample: on a non-empty corpus holding one CRITICAL
finding, a search with empty keywords and empty patterns returns that
finding, not the empty sequence — severity/quality/rarity alone push the
score above the `> 0` bar. -/
theorem c5_counterexample :
    searchRelevantFindings [oracleFinding] [] [] 10 = [oracleFinding]
    ∧ searchRelevantFindings [oracleFinding] [] [] 10 ≠ [] := by decide

/-- Claim C5 (amended): with empty keywords and patterns (and a positive
limit), the search returns the empty sequence exactly when no finding in
the corpus has a positive base score — i.e. severity bonus plus twice the
quality score plus the rarity score.  Empty signal sets do NOT by
themselves force an empty result. -/
theorem c5_theorem (pool : List SecurityFinding) (limit : Int) (h : 1 ≤ limit) :
    searchRelevantFindings pool [] [] limit = []
      ↔ ∀ f ∈ pool, computeScore f [] [] ≤ 0 := by
  have hres : searchRelevantFindings pool [] [] limit
      = (jsSlice limit (jsSort scoreDescLe
          ((List.map (fun f => (f, computeScore f [] [])) pool).filter
            (fun sf => 0 < sf.2)))).map (fun sf => sf.1) := rfl
  rw [hres, List.map_eq_nil_iff]
  constructor
  · intro hslice f hf
    have hlim : ¬ limit < 0 := not_lt.mpr (le_trans (by decide) h)
    unfold jsSlice at hslice
    rw [if_neg hlim] at hslice
    rcases List.take_eq_nil_iff.mp hslice with h0 | hnil
    · exfalso
      have hle : limit ≤ 0 := Int.toNat_eq_zero.mp h0
      omega
    · have hperm := jsSort_perm scoreDescLe
        ((List.map (fun f => (f, computeScore f [] [])) pool).filter
          (fun sf => 0 < sf.2))
      rw [hnil] at hperm
      have hfil : (List.map (fun f => (f, computeScore f [] [])) pool).filter
          (fun sf => 0 < sf.2) = [] :=
        List.eq_nil_of_length_eq_zero (by simpa using hperm.length_eq.symm)
      have hall := List.filter_eq_nil_iff.mp hfil
      have hp := hall (f, computeScore f [] []) (List.mem_map_of_mem _ hf)
      simpa [not_lt] using hp
  · intro hall
    have hfil : (List.map (fun f => (f, computeScore f [] [])) pool).filter
        (fun sf => 0 < sf.2) = [] := by
      rw [List.filter_eq_nil_iff]
      intro p hp
      rcases List.mem_map.mp hp with ⟨f, hf, rfl⟩
      simpa using not_lt.mpr (hall f hf)
    rw [hfil]
    simp [jsSort, jsSlice]

/-- Claim C5, witness: the amended equivalence at limit 10 on a corpus
whose only finding has zero base score, where the search is indeed empty. -/
theorem c5_witness :
    ((1 : Int) ≤ 10)
    ∧ (searchRelevantFindings [quietFinding] [] [] 10 = []
        ↔ ∀ f ∈ [quietFinding], computeScore f [] [] ≤ 0) :=
  ⟨by decide, c5_theorem [quietFinding] 10 (by decide)⟩

/-! ### Claims C8, C10 -/

/-- Comparator transitivity for the filesystem listing sort. -/
theorem createdDescLe_trans (a b c : AuditResult)
    (hab : createdDescLe a b = true) (hbc : createdDescLe b c = true) :
    createdDescLe a c = true := by
  simp only [createdDescLe, decide_eq_true_eq] at *
  exact le_trans hbc hab

/-- Comparator totality for the filesystem listing sort. -/
theorem createdDescLe_total (a b : AuditResult) :
    createdDescLe a b = true ∨ createdDescLe b a = true := by
  simp only [createdDescLe, decide_eq_true_eq]
  exact le_total b.created_at a.created_at

/-- Claim C8, counterexample: after `save A` (created 0), `save B`
(created 10) and a re-`save A` (the upsert a status update performs), the
KV listing is `[A, B]` — not ordered by creation timestamp — while the
filesystem listing of the same saves is `[B, A]`: the two backends do not
share the claimed creation-descending order. -/
theorem c8_counterexample :
    kvGetAllAudits c8KVDemo = [c8A, c8B]
    ∧ ¬ (kvGetAllAudits c8KVDemo).Pairwise
        (fun a b => b.created_at ≤ a.created_at)
    ∧ getAllAudits c8FsDemo = [c8B, c8A] := by decide

/-- Claim C8 (amended): the filesystem backend lists records ordered by
creation timestamp descending; the key/value backend lists records ordered
by the save-time score of its sorted set, i.e. newest-SAVE-first.  The two
orders agree only while the latest save times follow creation order, and a
re-saved (upserted) record moves to the front of the KV listing. -/
theorem c8_theorem :
    (∀ s : Store, (getAllAudits s).Pairwise
        (fun a b => b.created_at ≤ a.created_at))
    ∧ (∀ st : KVStore, KVWellFormed st →
        (kvGetAllAudits st).Pairwise
          (fun a b => kvScoreOf st b ≤ kvScoreOf st a)) := by
  constructor
  · intro s
    exact (jsSort_pairwise createdDescLe_trans createdDescLe_total s).imp
      (fun h => by simpa [createdDescLe, decide_eq_true_eq] using h)
  · intro st hwf
    have hform : kvGetAllAudits st
        = List.filterMap ((fun id => lookupAssoc st.kv id) ∘ (fun p => p.1))
            (List.reverse (jsSort zsetScoreLe st.zset)) := by
      rw [kvGetAllAudits, kvZrangeRev, List.filterMap_map]
    rw [hform, List.pairwise_filterMap]
    have hrev : (List.reverse (jsSort zsetScoreLe st.zset)).Pairwise
        (fun p q : String × Nat => q.2 ≤ p.2) := by
      rw [List.pairwise_reverse]
      exact (jsSort_pairwise zsetScoreLe_trans zsetScoreLe_total st.zset).imp
        (fun h => by simpa [zsetScoreLe, decide_eq_true_eq] using h)
    refine List.Pairwise.imp_of_mem ?_ hrev
    intro p q hpmem hqmem hr b hb b2 hb2
    have hbs : lookupAssoc st.kv p.1 = some b := hb
    have hbs2 : lookupAssoc st.kv q.1 = some b2 := hb2
    have hscore : ∀ (pr : String × Nat) (c : AuditResult),
        pr ∈ List.reverse (jsSort zsetScoreLe st.zset) →
        lookupAssoc st.kv pr.1 = some c → kvScoreOf st c = pr.2 := by
      intro pr c hprmem hcs
      rcases lookupAssoc_some_spec hcs with ⟨en, henmem, henk, henv⟩
      have hcid : c.id = pr.1 := by rw [← henv, hwf.2 en henmem, henk]
      have hprz : pr ∈ st.zset :=
        (jsSort_perm zsetScoreLe st.zset).mem_iff.mp (List.mem_reverse.mp hprmem)
      rw [kvScoreOf, hcid, lookupAssoc_eq_of_mem_nodup hwf.1 hprz]
      rfl
    rw [hscore p b hpmem hbs, hscore q b2 hqmem hbs2]
    exact hr

/-- Claim C8, witness: the KV conjunct of the amended theorem applied to
the concrete three-save store. -/
theorem c8_witness :
    KVWellFormed c8KVDemo
    ∧ (kvGetAllAudits c8KVDemo).Pairwise
        (fun a b => kvScoreOf c8KVDemo b ≤ kvScoreOf c8KVDemo a) :=
  ⟨by decide, c8_theorem.2 c8KVDemo (by decide)⟩

/-- Claim C10: when the first index load fails at the directory scan, the
cache was already assigned the non-null empty map, so the first call
reports the error but every later `initializeReportsIndex` call returns
success without touching the filesystem again (the load is never retried),
every later search succeeds with the empty sequence, and the by-category
lookup succeeds with the empty list. -/
theorem c10_theorem (e : String) (rr : String → Except String SecurityReport)
    (rd2 : Except String (List String)) (rr2 : String → Except String SecurityReport)
    (kw pats : List String) (lim : Int) (cat : String) :
    (initReportsIndex (Except.error e) rr initialReportsState).2 = Except.error e
    ∧ (initReportsIndex (Except.error e) rr initialReportsState).1.reportsCache
        = some []
    ∧ (initReportsIndex (Except.error e) rr initialReportsState).1.indexedFindings
        = []
    ∧ initReportsIndex rd2 rr2 (initReportsIndex (Except.error e) rr initialReportsState).1
        = ((initReportsIndex (Except.error e) rr initialReportsState).1, Except.ok ())
    ∧ searchAfterInit rd2 rr2
          (initReportsIndex (Except.error e) rr initialReportsState).1 kw pats lim
        = ((initReportsIndex (Except.error e) rr initialReportsState).1,
            Except.ok [])
    ∧ getFindingsByCategoryFull rd2 rr2
          (initReportsIndex (Except.error e) rr initialReportsState).1 cat
        = ((initReportsIndex (Except.error e) rr initialReportsState).1,
            Except.ok []) := by
  have hst : (initReportsIndex (Except.error e) rr initialReportsState).1
      = { reportsCache := some [], indexedFindings := [] } := rfl
  refine ⟨rfl, rfl, rfl, ?_, ?_, ?_⟩
  · rw [hst]
    rfl
  · rw [hst]
    simp [searchAfterInit, initReportsIndex, searchRelevantFindings, jsSort, jsSlice]
  · rw [hst]
    simp [getFindingsByCategoryFull, initReportsIndex, lookupAssoc]
